import Mathlib

/-!
Verification of the GastroMap/TraceBook front-end against its
natural-language specification.

The development shallowly embeds the data model and the pure decision
logic of the React components:

* `UserRec` mirrors the `UserWithId` record used by both admin-console
  variants (`SiteManagementModal.tsx` and `SiteManagementModal_1.tsx`);
  string-union fields (`status`, `role`) are embedded as `String`.
* Backend round trips (Firestore `updateDoc` / `addDoc` / `deleteDoc`)
  are embedded by their success-path effect on the locally held state:
  each handler becomes a function from the pre-state to the post-state
  together with the list of documents it creates.  The
  `window.confirm` dialog becomes an explicit boolean argument.
* External services (the generative-model call, the blob fetch) become
  oracle parameters returning either a value or a thrown error.
* JavaScript `Array.prototype.sort` (stable) is embedded as Mathlib's
  stable `List.insertionSort`; `localeCompare` on names is embedded as
  the linear order on `String`.
* DOM geometry (`getCardPosition` in the tutorial overlay) is embedded
  over exact rational arithmetic.
-/

/-- A user document as read by the admin console: the `UserWithId`
interface of both `SiteManagementModal` variants. -/
structure UserRec where
  id : String
  email : String
  displayName : Option String
  photoURL : Option String
  emailVerified : Bool
  status : String
  role : String
  provider : Option String
  createdAt : String
  approvedBy : Option String
  approvedAt : Option String
deriving DecidableEq, Repr

/-- A notification document as created by `addDoc(notificationsRef, ...)`
in the admin console (the server-assigned timestamp is omitted). -/
structure NotificationDoc where
  recipientUid : String
  type : String
  message : String
  read : Bool
deriving DecidableEq, Repr

namespace SiteManagementModal

/-- The four views of the non-stats admin modal (`ManagementView` in
`SiteManagementModal.tsx`). -/
inductive MView where
  | menu
  | users
  | pendingUserDetail
  | approvedUserDetail
deriving DecidableEq, Repr

/-- Filter for the pending bucket of `SiteManagementModal.tsx`:
`users.filter(u => !u.emailVerified || u.status !== 'approved')`. -/
def pendingUsers (users : List UserRec) : List UserRec :=
  users.filter (fun u => !u.emailVerified || u.status != "approved")

/-- Filter for the approved bucket of `SiteManagementModal.tsx`:
`users.filter(u => u.status === 'approved' && u.emailVerified)`. -/
def approvedUsers (users : List UserRec) : List UserRec :=
  users.filter (fun u => u.status == "approved" && u.emailVerified)

/-- The per-user update applied by `handleApproveUser` in
`SiteManagementModal.tsx`, both in `updateDoc` and in the `setUsers`
map: the matching user gets `status: 'approved'`, `approvedBy: 'admin'`
and `approvedAt`, every other user is returned unchanged. -/
def approveUpdate (approvedAt : String) (userId : String) (u : UserRec) : UserRec :=
  if u.id == userId then
    { u with status := "approved", approvedBy := some "admin", approvedAt := some approvedAt }
  else u

/-- Success path of `handleApproveUser` in `SiteManagementModal.tsx`:
the updated user list paired with the notification documents created
(`addDoc` is called exactly once, addressed to `userId`). -/
def handleApproveUser (language : String) (approvedAt : String) (userId : String)
    (users : List UserRec) : List UserRec × List NotificationDoc :=
  (users.map (approveUpdate approvedAt userId),
    [{ recipientUid := userId
       type := "admin_approved"
       message :=
         if language == "zh" then
           "欢迎！您的账号已被管理员手动批准。您现在可以开始添加您的美食记忆了。"
         else
           "Welcome! Your account has been manually approved by an admin. You can now start adding your food memories."
       read := false }])

/-- The per-user update applied by `handleRejectUser` in
`SiteManagementModal.tsx`. -/
def rejectUpdate (userId : String) (u : UserRec) : UserRec :=
  if u.id == userId then { u with status := "rejected" } else u

/-- Local state touched by `handleRejectUser` in `SiteManagementModal.tsx`:
the fetched user list and the detail-view selection. -/
structure RejectState where
  users : List UserRec
  selectedUser : Option UserRec
deriving DecidableEq, Repr

/-- `handleRejectUser` of `SiteManagementModal.tsx`: it returns before
any mutation unless `window.confirm` (the `confirmed` argument) is
accepted; when confirmed it sets `status: 'rejected'` on the matching
user in `updateDoc`, `setUsers` and (when selected) `setSelectedUser`. -/
def handleRejectUser (confirmed : Bool) (userId : String) (s : RejectState) : RejectState :=
  if !confirmed then s
  else
    { users := s.users.map (rejectUpdate userId)
      selectedUser :=
        match s.selectedUser with
        | some su => if su.id == userId then some { su with status := "rejected" } else some su
        | none => none }

/-- Whether a delete control is rendered, by view, in
`SiteManagementModal.tsx`: the whole danger-zone section (initial
button and confirm button alike) appears only in the approved-user
detail view and only under the `selectedUser.role !== 'admin'` guard;
no other view renders any delete control. -/
def deleteControlRendered (view : MView) (selectedUser : UserRec) : Bool :=
  match view with
  | .approvedUserDetail => selectedUser.role != "admin"
  | _ => false

end SiteManagementModal

namespace SiteManagementModal1

/-- Filter for the approved bucket of `SiteManagementModal_1.tsx`:
`users.filter(u => u.status === 'approved')`. -/
def approvedUsers (users : List UserRec) : List UserRec :=
  users.filter (fun u => u.status == "approved")

/-- Filter for the pending bucket of `SiteManagementModal_1.tsx`:
`users.filter(u => u.status === 'pending')`. -/
def pendingUsers (users : List UserRec) : List UserRec :=
  users.filter (fun u => u.status == "pending")

/-- The per-user update applied by `handleApproveUser` in
`SiteManagementModal_1.tsx`: only `status` is set. -/
def approveUpdate (userId : String) (u : UserRec) : UserRec :=
  if u.id == userId then { u with status := "approved" } else u

/-- Success path of `handleApproveUser` in `SiteManagementModal_1.tsx`:
the updated user list paired with the notification documents created
(`addDoc` is called exactly once, addressed to `userId`). -/
def handleApproveUser (userId : String) (users : List UserRec) :
    List UserRec × List NotificationDoc :=
  (users.map (approveUpdate userId),
    [{ recipientUid := userId
       type := "join_approved"
       message := "Welcome! Your account has been approved. You can now start adding your food memories."
       read := false }])

/-- `handleRejectUser` of `SiteManagementModal_1.tsx`: returns before any
mutation unless confirmed; when confirmed it sets `status: 'rejected'`
on the matching user. -/
def handleRejectUser (confirmed : Bool) (userId : String) (users : List UserRec) : List UserRec :=
  if !confirmed then users
  else users.map (fun u => if u.id == userId then { u with status := "rejected" } else u)

/-- `handleDeleteUser` of `SiteManagementModal_1.tsx`: returns before any
mutation unless `window.confirm` is accepted; when confirmed it deletes
the document and filters the user out of the list.  The handler checks
no role. -/
def handleDeleteUser (confirmed : Bool) (userId : String) (users : List UserRec) : List UserRec :=
  if !confirmed then users
  else users.filter (fun u => u.id != userId)

/-- Whether the delete button is rendered on a row of the approved-users
list in `SiteManagementModal_1.tsx`: it is shown for every approved
user whenever that row is not in its loading state — there is no role
guard. -/
def deleteButtonRendered (actionLoading : Option String) (u : UserRec) : Bool :=
  !(actionLoading == some u.id)

end SiteManagementModal1

/-- Outcome of an external asynchronous call: it either resolves with a
value or throws. -/
inductive ExtResult (α : Type) where
  | ok (a : α)
  | thrown
deriving DecidableEq, Repr

/-- Character-list comparison embedding JavaScript
`String.prototype.startsWith`: kernel-computable, unlike the built-in
byte-position primitives. -/
def charsHead : List Char → List Char → Bool
  | [], _ => true
  | _ :: _, [] => false
  | c :: cs, d :: ds => c == d && charsHead cs ds

/-- Whether `s` starts with `p`, over the character lists. -/
def strStartsWith (s p : String) : Bool :=
  charsHead p.data s.data

/-- The string `s` with its first `n` characters removed, over the
character lists. -/
def strDrop (s : String) (n : Nat) : String :=
  String.mk (s.data.drop n)

namespace GeminiService

/-- The data-URL prefixes removed by the regex
`^data:image\/(png|jpeg|jpg|heic|webp);base64,` in
`generateFoodDescription`. -/
def dataUrlHeads : List String :=
  ["data:image/png;base64,", "data:image/jpeg;base64,", "data:image/jpg;base64,",
   "data:image/heic;base64,", "data:image/webp;base64,"]

/-- One anchored `String.replace` of the data-URL prefix: if the input
starts with one of the recognized image data-URL heads, that head is
dropped; otherwise the input is returned unchanged. -/
def stripDataUrlHead (s : String) : String :=
  match dataUrlHeads.find? (fun p => strStartsWith s p) with
  | some p => strDrop s p.data.length
  | none => s

/-- JavaScript `a || b` on an optional string: `none` (undefined) and
the empty string are falsy. -/
def jsOrElse (t : Option String) (d : String) : String :=
  match t with
  | none => d
  | some s => if s = "" then d else s

/-- The normalization of the image argument inside the `try` block of
`generateFoodDescription`: a `blob:` reference is fetched and re-encoded
by the external `fetchBlobBase64` oracle (which may throw), anything
else has its data-URL head stripped locally. -/
def cleanBase64Of (fetchBlobBase64 : String → ExtResult String)
    (base64Image : String) : ExtResult String :=
  if strStartsWith base64Image "blob:" then fetchBlobBase64 base64Image
  else .ok (stripDataUrlHead base64Image)

/-- The fixed prompt template of `generateFoodDescription`, built from
the user comment and the restaurant name. -/
def promptOf (userComment restaurantName : String) : String :=
  "I am at a restaurant called \"" ++ restaurantName ++ "\".\n" ++
  "    Here is a photo of what I am eating.\n" ++
  "    My initial thought is: \"" ++ userComment ++ "\".\n" ++
  "    \n" ++
  "    Please write a short, fun, 1-sentence social media style caption for this food. \n" ++
  "    Mention the visual appeal if possible."

/-- `generateFoodDescription` of `src/services/geminiService.ts`: the
two external effects (blob fetch and the model call) are oracle
parameters; the model call receives the cleaned base64 payload and the
prompt and resolves with `response.text` (`none` models a missing
text).  Any thrown error is caught and mapped to the fixed failure
string; a resolved call returns `response.text || "Delicious!"`. -/
def generateFoodDescription (fetchBlobBase64 : String → ExtResult String)
    (generateContent : String → String → ExtResult (Option String))
    (base64Image userComment restaurantName : String) : String :=
  match cleanBase64Of fetchBlobBase64 base64Image with
  | .thrown => "Could not generate description."
  | .ok cleanBase64 =>
    match generateContent cleanBase64 (promptOf userComment restaurantName) with
    | .thrown => "Could not generate description."
    | .ok text => jsOrElse text "Delicious!"

end GeminiService

namespace PendingScreen

/-- The cooldown value installed by a successful resend in
`handleResendVerification` (`setResendCooldown(60)`); when the resend
callback throws, the cooldown is left unchanged. -/
def handleResendVerification (success : Bool) (cooldown : Nat) : Nat :=
  if success then 60 else cooldown

/-- One firing of the countdown effect: when the cooldown is positive a
one-second timer decrements it by one; at zero no timer is scheduled
and the value stays put. -/
def tick (cooldown : Nat) : Nat :=
  if 0 < cooldown then cooldown - 1 else cooldown

/-- The disabled predicate of the resend button:
`disabled={resendCooldown > 0}`. -/
def resendDisabled (cooldown : Nat) : Bool :=
  decide (0 < cooldown)

end PendingScreen

namespace Tutorial

/-- A DOM bounding rectangle as consumed by `getCardPosition`
(`getBoundingClientRect` of the highlighted element); `bottom` is
`top + height` as in `DOMRect`. -/
structure Rect where
  top : ℚ
  left : ℚ
  width : ℚ
  height : ℚ
deriving DecidableEq, Repr

/-- The `bottom` accessor of a `DOMRect`. -/
def Rect.bottom (r : Rect) : ℚ := r.top + r.height

/-- The result of `getCardPosition`: either the centered CSS placement
(`top 50%, left 50%, translate(-50%, -50%)`) used when there is no
highlight rectangle, or an absolute pixel placement. -/
inductive CardPosition where
  | centered
  | at (top : ℚ) (left : ℚ)
deriving DecidableEq, Repr

/-- The card height constant of `getCardPosition`. -/
def cardHeight : ℚ := 280

/-- The card width of `getCardPosition`: `Math.min(320, viewportWidth - 32)`. -/
def cardWidth (viewportWidth : ℚ) : ℚ := min 320 (viewportWidth - 32)

/-- The padding constant of `getCardPosition`. -/
def padding : ℚ := 16

/-- `getCardPosition` of the tutorial overlay: with no highlight
rectangle the card is centered; otherwise, when the element's vertical
center is in the top half of the viewport the card top anchors below
the element (`min` against the far clamp), else above it (`max`
against the near clamp), and the left coordinate centers on the element
clamped between both horizontal bounds. -/
def getCardPosition (viewportWidth viewportHeight : ℚ)
    (highlightRect : Option Rect) : CardPosition :=
  match highlightRect with
  | none => .centered
  | some r =>
    let elementCenterY := r.top + r.height / 2
    let elementCenterX := r.left + r.width / 2
    let top :=
      if elementCenterY < viewportHeight / 2 then
        min (r.bottom + padding) (viewportHeight - cardHeight - padding)
      else
        max (r.top - cardHeight - padding) padding
    let left :=
      max padding (min (elementCenterX - cardWidth viewportWidth / 2)
        (viewportWidth - cardWidth viewportWidth - padding))
    .at top left

end Tutorial

namespace HeaderBar

/-- A restaurant enriched with its originating map
(`RestaurantWithMap` in `HeaderBar.tsx`; the visit list is irrelevant
to the grouping and omitted). -/
structure RestaurantWithMap where
  id : String
  name : String
  address : String
  mapId : String
  mapName : String
deriving DecidableEq, Repr

/-- One entry of the `groups` object built by `groupedByMap`: the map
id (the object key), the map name recorded at first encounter, and the
accumulated restaurants. -/
structure MapGroup where
  mapId : String
  mapName : String
  restaurants : List RestaurantWithMap
deriving DecidableEq, Repr

/-- One step of the `allRestaurantsWithMaps.forEach` loop of
`groupedByMap`: a restaurant is appended to its map's group, or a new
group is created at the end (JavaScript objects preserve string-key
insertion order). -/
def addToGroups (acc : List MapGroup) (r : RestaurantWithMap) : List MapGroup :=
  if acc.any (fun g => g.mapId == r.mapId) then
    acc.map (fun g =>
      if g.mapId == r.mapId then { g with restaurants := g.restaurants ++ [r] } else g)
  else
    acc ++ [{ mapId := r.mapId, mapName := r.mapName, restaurants := [r] }]

/-- The `groups` object of `groupedByMap` after the `forEach` loop, as
an association list in key-insertion order. -/
def buildGroups (rs : List RestaurantWithMap) : List MapGroup :=
  rs.foldl addToGroups []

/-- The within-group comparator `(a, b) => a.name.localeCompare(b.name)`
read as the preorder "a may come before b": name order on strings. -/
def nameLe (a b : RestaurantWithMap) : Prop :=
  a.name ≤ b.name

instance : DecidableRel nameLe :=
  fun a b => inferInstanceAs (Decidable (a.name ≤ b.name))

instance : IsTotal RestaurantWithMap nameLe :=
  ⟨fun a b => le_total a.name b.name⟩

instance : IsTrans RestaurantWithMap nameLe :=
  ⟨fun _ _ _ hab hbc => le_trans hab hbc⟩

/-- The group comparator of `groupedByMap` read as the preorder "a may
come before b": the active map's group precedes everything, and two
non-active groups compare by map name
(`if (idA === activeMapId) return -1; if (idB === activeMapId) return 1;
return groupA.mapName.localeCompare(groupB.mapName)`). -/
def groupLe (act : Option String) (a b : MapGroup) : Prop :=
  act = some a.mapId ∨ (act ≠ some b.mapId ∧ a.mapName ≤ b.mapName)

instance (act : Option String) : DecidableRel (groupLe act) :=
  fun a b =>
    inferInstanceAs (Decidable (act = some a.mapId ∨ (act ≠ some b.mapId ∧ a.mapName ≤ b.mapName)))

instance (act : Option String) : IsTotal MapGroup (groupLe act) := by
  refine ⟨fun a b => ?_⟩
  by_cases ha : act = some a.mapId
  · exact Or.inl (Or.inl ha)
  · by_cases hb : act = some b.mapId
    · exact Or.inr (Or.inl hb)
    · rcases le_total a.mapName b.mapName with h | h
      · exact Or.inl (Or.inr ⟨hb, h⟩)
      · exact Or.inr (Or.inr ⟨ha, h⟩)

instance (act : Option String) : IsTrans MapGroup (groupLe act) := by
  refine ⟨fun a b c hab hbc => ?_⟩
  rcases hab with ha | ⟨hnb, hab⟩
  · exact Or.inl ha
  · rcases hbc with hb | ⟨hnc, hbc⟩
    · exact absurd hb hnb
    · exact Or.inr ⟨hnc, le_trans hab hbc⟩

/-- `groupedByMap` of `HeaderBar.tsx`: build the groups object, sort
each group's restaurants by name, then sort the group entries with the
active map first and the rest by map name.  JavaScript
`Array.prototype.sort` is stable, as is `List.insertionSort`, which for
a total preorder computes the same (unique) stable result. -/
def groupedByMap (act : Option String) (rs : List RestaurantWithMap) : List MapGroup :=
  List.insertionSort (groupLe act)
    ((buildGroups rs).map (fun g =>
      { g with restaurants := List.insertionSort nameLe g.restaurants }))

end HeaderBar

/-- A concrete approved admin account, used as input for concrete checks. -/
def sampleAdmin : UserRec :=
  { id := "admin1", email := "admin@example.com", displayName := some "Admin"
    photoURL := none, emailVerified := true, status := "approved", role := "admin"
    provider := none, createdAt := "2024-01-01", approvedBy := none, approvedAt := none }

/-- A concrete rejected, email-verified account, used as input for concrete checks. -/
def sampleRejected : UserRec :=
  { id := "rej1", email := "rej@example.com", displayName := none
    photoURL := none, emailVerified := true, status := "rejected", role := "user"
    provider := none, createdAt := "2024-02-02", approvedBy := none, approvedAt := none }

/-- A first restaurant named Alpha on map m, for concrete checks. -/
def cexR1 : HeaderBar.RestaurantWithMap :=
  { id := "1", name := "Alpha", address := "addr one", mapId := "m", mapName := "Map M" }

/-- A second restaurant also named Alpha on map m, for concrete checks. -/
def cexR2 : HeaderBar.RestaurantWithMap :=
  { id := "2", name := "Alpha", address := "addr two", mapId := "m", mapName := "Map M" }

namespace HeaderBar

/-- Every restaurant stored in a group of the accumulator carries that
group's map id; `addToGroups` preserves this. -/
theorem addToGroups_mapId (acc : List MapGroup) (r : RestaurantWithMap)
    (h : ∀ g ∈ acc, ∀ x ∈ g.restaurants, x.mapId = g.mapId) :
    ∀ g ∈ addToGroups acc r, ∀ x ∈ g.restaurants, x.mapId = g.mapId := by
  intro g hg x hx
  unfold addToGroups at hg
  by_cases hany : acc.any (fun g => g.mapId == r.mapId)
  · rw [if_pos hany] at hg
    obtain ⟨g0, hg0, rfl⟩ := List.mem_map.mp hg
    by_cases hid : g0.mapId == r.mapId
    · rw [if_pos hid] at hx ⊢
      rcases List.mem_append.mp hx with hx | hx
      · exact h g0 hg0 x hx
      · rw [List.mem_singleton.mp hx]
        exact (beq_iff_eq.mp hid).symm
    · rw [if_neg hid] at hx ⊢
      exact h g0 hg0 x hx
  · rw [if_neg hany] at hg
    rcases List.mem_append.mp hg with hg | hg
    · exact h g hg x hx
    · rw [List.mem_singleton.mp hg] at hx ⊢
      rw [List.mem_singleton.mp hx]

/-- A restaurant already stored in some group stays in some group after
`addToGroups`. -/
theorem addToGroups_mono (acc : List MapGroup) (x r : RestaurantWithMap)
    (h : ∃ g ∈ acc, r ∈ g.restaurants) :
    ∃ g ∈ addToGroups acc x, r ∈ g.restaurants := by
  obtain ⟨g, hg, hr⟩ := h
  unfold addToGroups
  by_cases hany : acc.any (fun g => g.mapId == x.mapId)
  · rw [if_pos hany]
    refine ⟨_, List.mem_map_of_mem _ hg, ?_⟩
    by_cases hid : g.mapId == x.mapId
    · rw [if_pos hid]
      exact List.mem_append.mpr (Or.inl hr)
    · rw [if_neg hid]
      exact hr
  · rw [if_neg hany]
    exact ⟨g, List.mem_append.mpr (Or.inl hg), hr⟩

/-- The restaurant just processed by `addToGroups` is stored in some
group afterwards. -/
theorem mem_addToGroups_self (acc : List MapGroup) (x : RestaurantWithMap) :
    ∃ g ∈ addToGroups acc x, x ∈ g.restaurants := by
  unfold addToGroups
  by_cases hany : acc.any (fun g => g.mapId == x.mapId)
  · rw [if_pos hany]
    obtain ⟨g, hg, hid⟩ := List.any_eq_true.mp hany
    refine ⟨_, List.mem_map_of_mem _ hg, ?_⟩
    rw [if_pos hid]
    exact List.mem_append.mpr (Or.inr (List.mem_singleton.mpr rfl))
  · rw [if_neg hany]
    exact ⟨_, List.mem_append.mpr (Or.inr (List.mem_singleton.mpr rfl)),
      List.mem_singleton.mpr rfl⟩

/-- Coherence of the groups object: each stored restaurant carries its
group's map id. -/
theorem buildGroups_mapId (rs : List RestaurantWithMap) :
    ∀ g ∈ buildGroups rs, ∀ x ∈ g.restaurants, x.mapId = g.mapId := by
  suffices h : ∀ (l : List RestaurantWithMap) (acc : List MapGroup),
      (∀ g ∈ acc, ∀ x ∈ g.restaurants, x.mapId = g.mapId) →
      ∀ g ∈ l.foldl addToGroups acc, ∀ x ∈ g.restaurants, x.mapId = g.mapId by
    exact h rs [] (by simp)
  intro l
  induction l with
  | nil => intro acc hacc; simpa using hacc
  | cons x xs ih =>
    intro acc hacc
    exact ih (addToGroups acc x) (addToGroups_mapId acc x hacc)

/-- Completeness of the groups object: every processed restaurant is
stored in some group. -/
theorem buildGroups_complete (rs : List RestaurantWithMap) :
    ∀ r ∈ rs, ∃ g ∈ buildGroups rs, r ∈ g.restaurants := by
  suffices h : ∀ (l : List RestaurantWithMap) (acc : List MapGroup) (r : RestaurantWithMap),
      (r ∈ l ∨ ∃ g ∈ acc, r ∈ g.restaurants) →
      ∃ g ∈ l.foldl addToGroups acc, r ∈ g.restaurants by
    intro r hr
    exact h rs [] r (Or.inl hr)
  intro l
  induction l with
  | nil =>
    intro acc r hr
    rcases hr with hr | hr
    · simp at hr
    · simpa using hr
  | cons x xs ih =>
    intro acc r hr
    apply ih (addToGroups acc x) r
    rcases hr with hr | hr
    · rcases List.mem_cons.mp hr with rfl | hr
      · exact Or.inr (mem_addToGroups_self acc r)
      · exact Or.inl hr
    · exact Or.inr (addToGroups_mono acc x r hr)

/-- Membership in the output of `groupedByMap`: exactly the groups of
the groups object, with their restaurant lists sorted by name. -/
theorem mem_groupedByMap (act : Option String) (rs : List RestaurantWithMap)
    (g : MapGroup) :
    g ∈ groupedByMap act rs ↔
      ∃ g0 ∈ buildGroups rs,
        g = { g0 with restaurants := List.insertionSort nameLe g0.restaurants } := by
  unfold groupedByMap
  rw [(List.perm_insertionSort (groupLe act) _).mem_iff, List.mem_map]
  constructor
  · rintro ⟨g0, hg0, rfl⟩
    exact ⟨g0, hg0, rfl⟩
  · rintro ⟨g0, hg0, rfl⟩
    exact ⟨g0, hg0, rfl⟩

end HeaderBar

/-- Claim C1, as stated, is false: in the stats variant
(`SiteManagementModal_1.tsx`) the delete button is rendered on the
approved-users list row of an admin-role user, and the confirmed delete
handler removes the admin's document — the role gate exists only in the
other variant. -/
theorem C1_counterexample :
    sampleAdmin.role = "admin"
  ∧ sampleAdmin ∈ SiteManagementModal1.approvedUsers [sampleAdmin]
  ∧ SiteManagementModal1.deleteButtonRendered none sampleAdmin = true
  ∧ SiteManagementModal1.handleDeleteUser true sampleAdmin.id [sampleAdmin] = [] := by
  decide

/-- Claim C1, amended: in the non-stats variant
(`SiteManagementModal.tsx`) no view ever renders a delete control for an
admin-role user, so no delete of that document can be triggered there;
in the stats variant (`SiteManagementModal_1.tsx`) the delete button is
rendered even for admin-role users and the confirmed delete handler
removes the user regardless of role. -/
theorem C1_admin_delete_gate (view : SiteManagementModal.MView) (u : UserRec)
    (h : u.role = "admin") (users : List UserRec) :
    SiteManagementModal.deleteControlRendered view u = false
  ∧ SiteManagementModal1.deleteButtonRendered none u = true
  ∧ u ∉ SiteManagementModal1.handleDeleteUser true u.id users := by
  refine ⟨?_, ?_, ?_⟩
  · cases view <;> simp [SiteManagementModal.deleteControlRendered, h]
  · simp [SiteManagementModal1.deleteButtonRendered]
  · simp [SiteManagementModal1.handleDeleteUser, List.mem_filter]

/-- Witness for `C1_admin_delete_gate` at the concrete admin account. -/
theorem C1_witness :
    SiteManagementModal.deleteControlRendered
      SiteManagementModal.MView.approvedUserDetail sampleAdmin = false
  ∧ SiteManagementModal1.deleteButtonRendered none sampleAdmin = true
  ∧ sampleAdmin ∉ SiteManagementModal1.handleDeleteUser true sampleAdmin.id [sampleAdmin] :=
  C1_admin_delete_gate SiteManagementModal.MView.approvedUserDetail sampleAdmin
    (by decide) [sampleAdmin]

/-- Claim C2, as stated, is false for the stats variant it cites: a
rejected, email-verified user satisfies the claimed pending condition
(not verified OR status not approved — here the second disjunct) yet
appears in neither bucket of `SiteManagementModal_1.tsx`, whose filters
are `status === 'pending'` and `status === 'approved'`. -/
theorem C2_counterexample :
    (sampleRejected.emailVerified = false ∨ sampleRejected.status ≠ "approved")
  ∧ sampleRejected ∉ SiteManagementModal1.pendingUsers [sampleRejected]
  ∧ sampleRejected ∉ SiteManagementModal1.approvedUsers [sampleRejected] := by
  decide

/-- Claim C2, amended: in the non-stats variant the buckets are exactly
as the claim states (pending iff not verified or status not approved;
approved iff status approved and verified; every fetched user is in
exactly one bucket, rejected users in the pending one); in the stats
variant the buckets are instead status = pending and status = approved,
so a rejected user appears in neither. -/
theorem C2_partition (users : List UserRec) (u : UserRec) (hu : u ∈ users) :
    (u ∈ SiteManagementModal.pendingUsers users ↔
      (u.emailVerified = false ∨ u.status ≠ "approved"))
  ∧ (u ∈ SiteManagementModal.approvedUsers users ↔
      (u.status = "approved" ∧ u.emailVerified = true))
  ∧ (u ∈ SiteManagementModal.pendingUsers users ↔
      u ∉ SiteManagementModal.approvedUsers users)
  ∧ (u.status = "rejected" → u ∈ SiteManagementModal.pendingUsers users)
  ∧ (u ∈ SiteManagementModal1.pendingUsers users ↔ u.status = "pending")
  ∧ (u ∈ SiteManagementModal1.approvedUsers users ↔ u.status = "approved")
  ∧ (u.status = "rejected" →
      u ∉ SiteManagementModal1.pendingUsers users ∧
      u ∉ SiteManagementModal1.approvedUsers users) := by
  have hp : u ∈ SiteManagementModal.pendingUsers users ↔
      (u.emailVerified = false ∨ u.status ≠ "approved") := by
    simp [SiteManagementModal.pendingUsers, List.mem_filter, hu, Bool.not_eq_true']
  have ha : u ∈ SiteManagementModal.approvedUsers users ↔
      (u.status = "approved" ∧ u.emailVerified = true) := by
    simp [SiteManagementModal.approvedUsers, List.mem_filter, hu]
  have hp1 : u ∈ SiteManagementModal1.pendingUsers users ↔ u.status = "pending" := by
    simp [SiteManagementModal1.pendingUsers, List.mem_filter, hu]
  have ha1 : u ∈ SiteManagementModal1.approvedUsers users ↔ u.status = "approved" := by
    simp [SiteManagementModal1.approvedUsers, List.mem_filter, hu]
  refine ⟨hp, ha, ?_, ?_, hp1, ha1, ?_⟩
  · rw [hp, ha]
    constructor
    · rintro (hv | hs) ⟨hs', hv'⟩
      · exact absurd hv' (by simp [hv])
      · exact hs hs'
    · intro hno
      by_cases hs : u.status = "approved"
      · by_cases hv : u.emailVerified = true
        · exact absurd ⟨hs, hv⟩ hno
        · exact Or.inl (by simpa using hv)
      · exact Or.inr hs
  · intro hs
    rw [hp]
    exact Or.inr (by simp [hs])
  · intro hs
    rw [hp1, ha1, hs]
    refine ⟨by decide, by decide⟩

/-- Witness for `C2_partition` at the concrete rejected account. -/
theorem C2_witness :
    (sampleRejected ∈ SiteManagementModal.pendingUsers [sampleRejected] ↔
      (sampleRejected.emailVerified = false ∨ sampleRejected.status ≠ "approved"))
  ∧ (sampleRejected ∈ SiteManagementModal.approvedUsers [sampleRejected] ↔
      (sampleRejected.status = "approved" ∧ sampleRejected.emailVerified = true))
  ∧ (sampleRejected ∈ SiteManagementModal.pendingUsers [sampleRejected] ↔
      sampleRejected ∉ SiteManagementModal.approvedUsers [sampleRejected])
  ∧ (sampleRejected.status = "rejected" →
      sampleRejected ∈ SiteManagementModal.pendingUsers [sampleRejected])
  ∧ (sampleRejected ∈ SiteManagementModal1.pendingUsers [sampleRejected] ↔
      sampleRejected.status = "pending")
  ∧ (sampleRejected ∈ SiteManagementModal1.approvedUsers [sampleRejected] ↔
      sampleRejected.status = "approved")
  ∧ (sampleRejected.status = "rejected" →
      sampleRejected ∉ SiteManagementModal1.pendingUsers [sampleRejected] ∧
      sampleRejected ∉ SiteManagementModal1.approvedUsers [sampleRejected]) :=
  C2_partition [sampleRejected] sampleRejected (by decide)

/-- Claim C3: in both variants, approving `userId` sets that user's
status to approved (and, in the manual-override variant, `approvedBy`
and `approvedAt`), and creates exactly one notification document whose
`recipientUid` is `userId`. -/
theorem C3_approve (language approvedAt userId : String) (users : List UserRec) :
    (∀ u ∈ (SiteManagementModal.handleApproveUser language approvedAt userId users).1,
        u.id = userId →
          u.status = "approved" ∧ u.approvedBy = some "admin" ∧
          u.approvedAt = some approvedAt)
  ∧ (SiteManagementModal.handleApproveUser language approvedAt userId users).2.length = 1
  ∧ (∀ n ∈ (SiteManagementModal.handleApproveUser language approvedAt userId users).2,
        n.recipientUid = userId)
  ∧ (∀ u ∈ (SiteManagementModal1.handleApproveUser userId users).1,
        u.id = userId → u.status = "approved")
  ∧ (SiteManagementModal1.handleApproveUser userId users).2.length = 1
  ∧ (∀ n ∈ (SiteManagementModal1.handleApproveUser userId users).2,
        n.recipientUid = userId) := by
  refine ⟨?_, by simp [SiteManagementModal.handleApproveUser], ?_, ?_,
    by simp [SiteManagementModal1.handleApproveUser], ?_⟩
  · intro u hu hid
    simp only [SiteManagementModal.handleApproveUser, List.mem_map] at hu
    obtain ⟨v, -, rfl⟩ := hu
    by_cases hv : v.id == userId
    · simp [SiteManagementModal.approveUpdate, hv]
    · exfalso
      simp only [SiteManagementModal.approveUpdate, hv, if_false] at hid
      exact absurd (beq_iff_eq.mpr hid) (by simpa using hv)
  · intro n hn
    simp only [SiteManagementModal.handleApproveUser, List.mem_singleton] at hn
    simp [hn]
  · intro u hu hid
    simp only [SiteManagementModal1.handleApproveUser, List.mem_map] at hu
    obtain ⟨v, -, rfl⟩ := hu
    by_cases hv : v.id == userId
    · simp [SiteManagementModal1.approveUpdate, hv]
    · exfalso
      simp only [SiteManagementModal1.approveUpdate, hv, if_false] at hid
      exact absurd (beq_iff_eq.mpr hid) (by simpa using hv)
  · intro n hn
    simp only [SiteManagementModal1.handleApproveUser, List.mem_singleton] at hn
    simp [hn]

/-- Claim C4, as stated, is false: a model call that resolves (does not
throw) with an empty text makes `generateFoodDescription` return the
hardcoded string for an empty caption, not the model's (empty) text and
not the failure string. -/
theorem C4_counterexample :
    GeminiService.generateFoodDescription (fun _ => .ok "") (fun _ _ => .ok (some ""))
      "data:image/jpeg;base64,QUJD" "tasty" "Cafe" = "Delicious!"
  ∧ ("Delicious!" : String) ≠ ""
  ∧ ("Delicious!" : String) ≠ "Could not generate description." := by
  decide

/-- Claim C4, amended: for every input and oracle behaviour,
`generateFoodDescription` returns the model's text when the call
resolves with a nonempty text, returns the literal failure string when
the blob fetch or the model call throws, and otherwise (resolved but
empty or missing text) returns the hardcoded caption — in particular no
error is ever propagated: the result is always one of those strings. -/
theorem C4_fallback (fetchBlobBase64 : String → ExtResult String)
    (generateContent : String → String → ExtResult (Option String))
    (img comment rname : String) :
    (∀ clean t, GeminiService.cleanBase64Of fetchBlobBase64 img = .ok clean →
      generateContent clean (GeminiService.promptOf comment rname) = .ok (some t) → t ≠ "" →
      GeminiService.generateFoodDescription fetchBlobBase64 generateContent img comment rname = t)
  ∧ (GeminiService.cleanBase64Of fetchBlobBase64 img = .thrown →
      GeminiService.generateFoodDescription fetchBlobBase64 generateContent img comment rname =
        "Could not generate description.")
  ∧ (∀ clean, GeminiService.cleanBase64Of fetchBlobBase64 img = .ok clean →
      generateContent clean (GeminiService.promptOf comment rname) = .thrown →
      GeminiService.generateFoodDescription fetchBlobBase64 generateContent img comment rname =
        "Could not generate description.")
  ∧ (GeminiService.generateFoodDescription fetchBlobBase64 generateContent img comment rname =
        "Could not generate description."
     ∨ GeminiService.generateFoodDescription fetchBlobBase64 generateContent img comment rname =
        "Delicious!"
     ∨ ∃ clean t, GeminiService.cleanBase64Of fetchBlobBase64 img = .ok clean ∧
         generateContent clean (GeminiService.promptOf comment rname) = .ok (some t) ∧ t ≠ "" ∧
         GeminiService.generateFoodDescription fetchBlobBase64 generateContent img comment rname = t) := by
  refine ⟨?_, ?_, ?_, ?_⟩
  · intro clean t hc hg ht
    simp [GeminiService.generateFoodDescription, hc, hg, GeminiService.jsOrElse, ht]
  · intro hc
    simp [GeminiService.generateFoodDescription, hc]
  · intro clean hc hg
    simp [GeminiService.generateFoodDescription, hc, hg]
  · cases hc : GeminiService.cleanBase64Of fetchBlobBase64 img with
    | thrown => exact Or.inl (by simp [GeminiService.generateFoodDescription, hc])
    | ok clean =>
      cases hg : generateContent clean (GeminiService.promptOf comment rname) with
      | thrown => exact Or.inl (by simp [GeminiService.generateFoodDescription, hc, hg])
      | ok text =>
        cases text with
        | none =>
          exact Or.inr (Or.inl (by
            simp [GeminiService.generateFoodDescription, hc, hg, GeminiService.jsOrElse]))
        | some t =>
          by_cases ht : t = ""
          · exact Or.inr (Or.inl (by
              simp [GeminiService.generateFoodDescription, hc, hg, GeminiService.jsOrElse, ht]))
          · refine Or.inr (Or.inr ⟨clean, t, rfl, hg, ht, ?_⟩)
            simp [GeminiService.generateFoodDescription, hc, hg, GeminiService.jsOrElse, ht]

/-- Claim C5: in both variants, rejecting a user runs `window.confirm`
before any mutation; on cancel the whole local state (user list and
selection) is returned unchanged, and on confirm the matching user's
status becomes rejected. -/
theorem C5_reject (userId : String) (s : SiteManagementModal.RejectState)
    (users1 : List UserRec) :
    SiteManagementModal.handleRejectUser false userId s = s
  ∧ (∀ u ∈ (SiteManagementModal.handleRejectUser true userId s).users,
        u.id = userId → u.status = "rejected")
  ∧ SiteManagementModal1.handleRejectUser false userId users1 = users1
  ∧ (∀ u ∈ SiteManagementModal1.handleRejectUser true userId users1,
        u.id = userId → u.status = "rejected") := by
  refine ⟨by simp [SiteManagementModal.handleRejectUser], ?_,
    by simp [SiteManagementModal1.handleRejectUser], ?_⟩
  · intro u hu hid
    simp [SiteManagementModal.handleRejectUser, List.mem_map] at hu
    obtain ⟨v, -, rfl⟩ := hu
    by_cases hv : v.id == userId
    · simp [SiteManagementModal.rejectUpdate, hv]
    · exfalso
      simp only [SiteManagementModal.rejectUpdate, hv, if_false] at hid
      exact absurd (beq_iff_eq.mpr hid) (by simpa using hv)
  · intro u hu hid
    simp [SiteManagementModal1.handleRejectUser, List.mem_map] at hu
    obtain ⟨v, -, rfl⟩ := hu
    by_cases hv : v.id = userId
    · simp [hv]
    · simp [hv] at hid

/-- Claim C6, as stated, is false: two distinct restaurants with equal
names in the same map keep their input order under the stable sort, so
permuting the input list permutes the grouped output — the result is
not invariant under permutation of the input. -/
theorem C6_counterexample :
    List.Perm [cexR2, cexR1] [cexR1, cexR2]
  ∧ HeaderBar.groupedByMap (some "m") [cexR1, cexR2] ≠
      HeaderBar.groupedByMap (some "m") [cexR2, cexR1] := by
  constructor
  · exact List.Perm.swap cexR1 cexR2 []
  · have e1 : HeaderBar.groupedByMap (some "m") [cexR1, cexR2] =
        [{ mapId := "m", mapName := "Map M", restaurants := [cexR1, cexR2] }] := by
      simp [HeaderBar.groupedByMap, HeaderBar.buildGroups, HeaderBar.addToGroups,
        HeaderBar.nameLe, cexR1, cexR2]
    have e2 : HeaderBar.groupedByMap (some "m") [cexR2, cexR1] =
        [{ mapId := "m", mapName := "Map M", restaurants := [cexR2, cexR1] }] := by
      simp [HeaderBar.groupedByMap, HeaderBar.buildGroups, HeaderBar.addToGroups,
        HeaderBar.nameLe, cexR1, cexR2]
    intro h
    rw [e1, e2] at h
    simp [cexR1, cexR2] at h

/-- Claim C6, amended: `groupedByMap` groups by map id (every stored
restaurant carries its group's id, and every input restaurant is
stored in some group), sorts the restaurants of each group by name,
and orders the groups by the active-first-then-map-name preorder, so
the active map's group (when present) is first; being a pure function
it is deterministic, but the output is only stable — a permutation of
the input may reorder equal-named restaurants inside a group, as the
counterexample shows. -/
theorem C6_grouping (act : Option String) (rs : List HeaderBar.RestaurantWithMap) :
    (∀ g ∈ HeaderBar.groupedByMap act rs, ∀ x ∈ g.restaurants, x.mapId = g.mapId)
  ∧ (∀ r ∈ rs, ∃ g ∈ HeaderBar.groupedByMap act rs, r ∈ g.restaurants)
  ∧ (∀ g ∈ HeaderBar.groupedByMap act rs, List.Sorted HeaderBar.nameLe g.restaurants)
  ∧ List.Sorted (HeaderBar.groupLe act) (HeaderBar.groupedByMap act rs)
  ∧ (∀ g ∈ HeaderBar.groupedByMap act rs, act = some g.mapId →
      ∃ h t, HeaderBar.groupedByMap act rs = h :: t ∧ act = some h.mapId) := by
  refine ⟨?_, ?_, ?_, ?_, ?_⟩
  · intro g hg x hx
    obtain ⟨g0, hg0, rfl⟩ := (HeaderBar.mem_groupedByMap act rs g).mp hg
    have hx0 : x ∈ g0.restaurants :=
      (List.perm_insertionSort HeaderBar.nameLe g0.restaurants).subset hx
    exact HeaderBar.buildGroups_mapId rs g0 hg0 x hx0
  · intro r hr
    obtain ⟨g0, hg0, hrg⟩ := HeaderBar.buildGroups_complete rs r hr
    refine ⟨{ g0 with restaurants := List.insertionSort HeaderBar.nameLe g0.restaurants },
      (HeaderBar.mem_groupedByMap act rs _).mpr ⟨g0, hg0, rfl⟩, ?_⟩
    exact (List.perm_insertionSort HeaderBar.nameLe g0.restaurants).mem_iff.mpr hrg
  · intro g hg
    obtain ⟨g0, hg0, rfl⟩ := (HeaderBar.mem_groupedByMap act rs g).mp hg
    exact List.sorted_insertionSort HeaderBar.nameLe g0.restaurants
  · exact List.sorted_insertionSort (HeaderBar.groupLe act) _
  · intro g hg hact
    have hs := List.sorted_insertionSort (HeaderBar.groupLe act)
      ((HeaderBar.buildGroups rs).map (fun g =>
        { g with restaurants := List.insertionSort HeaderBar.nameLe g.restaurants }))
    cases hout : HeaderBar.groupedByMap act rs with
    | nil =>
      rw [hout] at hg
      simp at hg
    | cons h t =>
      refine ⟨h, t, rfl, ?_⟩
      rw [hout] at hg
      rcases List.mem_cons.mp hg with rfl | hg
      · exact hact
      · have hrel : HeaderBar.groupLe act h g := by
          have hs' : List.Sorted (HeaderBar.groupLe act) (h :: t) := by
            rw [← hout]
            exact List.sorted_insertionSort (HeaderBar.groupLe act) _
          exact (List.sorted_cons.mp hs').1 g hg
        rcases hrel with hh | ⟨hng, _⟩
        · exact hh
        · exact absurd hact hng

/-- Claim C7: a successful resend sets the cooldown to 60; each
one-second tick decrements a positive cooldown by exactly one, so after
k ticks the counter reads 60 - k and after 60 ticks it reaches and then
stays at 0; the resend control is disabled exactly while the counter is
positive. -/
theorem C7_cooldown (c : Nat) :
    PendingScreen.handleResendVerification true c = 60
  ∧ PendingScreen.handleResendVerification false c = c
  ∧ (0 < c → PendingScreen.tick c = c - 1)
  ∧ PendingScreen.tick 0 = 0
  ∧ (∀ k : Nat, k ≤ 60 →
      PendingScreen.tick^[k] (PendingScreen.handleResendVerification true c) = 60 - k)
  ∧ PendingScreen.tick^[60] (PendingScreen.handleResendVerification true c) = 0
  ∧ (∀ n : Nat, PendingScreen.resendDisabled n = true ↔ 0 < n) := by
  have htick : ∀ m : Nat, ∀ k : Nat, k ≤ m → PendingScreen.tick^[k] m = m - k := by
    intro m k
    induction k generalizing m with
    | zero => intro _; simp
    | succ k ih =>
      intro hk
      have hm : 0 < m := Nat.lt_of_lt_of_le (Nat.succ_pos k) hk
      rw [Function.iterate_succ_apply, PendingScreen.tick, if_pos hm]
      rw [ih (m - 1) (by omega)]
      omega
  refine ⟨rfl, rfl, ?_, rfl, ?_, ?_, ?_⟩
  · intro hc
    simp [PendingScreen.tick, hc]
  · intro k hk
    simpa [PendingScreen.handleResendVerification] using htick 60 k hk
  · have h := htick 60 60 (by omega)
    have h60 : PendingScreen.handleResendVerification true c = 60 := rfl
    rw [h60, h]
  · intro n
    simp [PendingScreen.resendDisabled]

/-- Claim C8, as stated, is false: an element below the viewport (top
900 in an 800-high viewport) falls in the bottom half, the card anchors
above it at top 604, and 604 + 280 exceeds the 800 - 16 bound — the top
coordinate is clamped only toward the near edge in each branch, so the
card need not stay within the viewport. -/
theorem C8_counterexample :
    Tutorial.getCardPosition 1000 800
        (some { top := 900, left := 0, width := 10, height := 10 }) =
      Tutorial.CardPosition.at 604 16
  ∧ ¬((604 : ℚ) + Tutorial.cardHeight ≤ 800 - Tutorial.padding) := by
  constructor
  · simp [Tutorial.getCardPosition, Tutorial.Rect.bottom, Tutorial.cardHeight,
      Tutorial.cardWidth, Tutorial.padding]
    norm_num
  · simp [Tutorial.cardHeight, Tutorial.padding]
    norm_num

/-- Claim C8, amended: with no target the card is centered.  With a
target, the branch is chosen by which half of the viewport holds the
element's vertical center; the below-branch clamps the top against the
bottom bound and the above-branch against the top bound; the left
coordinate always stays within the horizontal bounds; and when the
element lies vertically inside the viewport and the viewport is at
least 312 (card height plus twice the padding) tall, the card also
stays fully within the vertical bounds.  When the near clamp is slack
the card sits exactly `padding` below the element's bottom edge
(respectively `padding + cardHeight` above its top edge). -/
theorem C8_card_position (vw vh : ℚ) (r : Tutorial.Rect) :
    Tutorial.getCardPosition vw vh none = Tutorial.CardPosition.centered
  ∧ (∀ top left, Tutorial.getCardPosition vw vh (some r) = .at top left →
      (r.top + r.height / 2 < vh / 2 →
        top ≤ vh - Tutorial.cardHeight - Tutorial.padding ∧
        (r.bottom + Tutorial.padding ≤ vh - Tutorial.cardHeight - Tutorial.padding →
          top = r.bottom + Tutorial.padding))
    ∧ (¬(r.top + r.height / 2 < vh / 2) →
        Tutorial.padding ≤ top ∧
        (Tutorial.padding ≤ r.top - Tutorial.cardHeight - Tutorial.padding →
          top = r.top - Tutorial.cardHeight - Tutorial.padding))
    ∧ Tutorial.padding ≤ left
    ∧ left + Tutorial.cardWidth vw ≤ vw - Tutorial.padding
    ∧ (0 ≤ r.top → 0 ≤ r.height → r.top + r.height ≤ vh → 312 ≤ vh →
        Tutorial.padding ≤ top ∧ top + Tutorial.cardHeight ≤ vh - Tutorial.padding)) := by
  refine ⟨rfl, ?_⟩
  intro top left h
  simp only [Tutorial.getCardPosition, Tutorial.CardPosition.at.injEq] at h
  obtain ⟨htop, hleft⟩ := h
  have hch : Tutorial.cardHeight = 280 := rfl
  have hpad : Tutorial.padding = 16 := rfl
  have hcw : Tutorial.cardWidth vw = min 320 (vw - 32) := rfl
  refine ⟨?_, ?_, ?_, ?_, ?_⟩
  · intro hhalf
    rw [if_pos hhalf] at htop
    constructor
    · rw [← htop]
      exact min_le_right _ _
    · intro hs
      rw [← htop, min_eq_left hs]
  · intro hhalf
    rw [if_neg hhalf] at htop
    constructor
    · rw [← htop]
      exact le_max_right _ _
    · intro hs
      rw [← htop, max_eq_left hs]
  · rw [← hleft]
    exact le_max_left _ _
  · rw [← hleft, hcw, hpad]
    rcases le_total (320 : ℚ) (vw - 32) with hw | hw
    · rw [min_eq_left hw]
      rcases le_total (r.left + r.width / 2 - 320 / 2) (vw - 320 - 16) with hm | hm
      · rw [min_eq_left hm]
        rcases le_total (16 : ℚ) (r.left + r.width / 2 - 320 / 2) with hx | hx
        · rw [max_eq_right hx]; linarith
        · rw [max_eq_left hx]; linarith
      · rw [min_eq_right hm]
        rw [max_eq_right (by linarith : (16 : ℚ) ≤ vw - 320 - 16)]
        linarith
    · rw [min_eq_right hw]
      have h16 : vw - (vw - 32) - 16 = 16 := by ring
      rcases le_total (r.left + r.width / 2 - (vw - 32) / 2) (vw - (vw - 32) - 16) with hm | hm
      · rw [min_eq_left hm]
        rcases le_total (16 : ℚ) (r.left + r.width / 2 - (vw - 32) / 2) with hx | hx
        · rw [max_eq_right hx]
          rw [h16] at hm
          linarith
        · rw [max_eq_left hx]; linarith
      · rw [min_eq_right hm, h16]
        rw [max_self]
        linarith
  · intro h0 hh hin hvh
    simp only [Tutorial.Rect.bottom, Tutorial.cardHeight, Tutorial.padding] at htop ⊢
    by_cases hhalf : r.top + r.height / 2 < vh / 2
    · rw [if_pos hhalf] at htop
      constructor
      · rw [← htop]
        exact le_min (by linarith) (by linarith)
      · rw [← htop]
        have hm := min_le_right (r.top + r.height + 16) (vh - 280 - 16)
        linarith
    · rw [if_neg hhalf] at htop
      constructor
      · rw [← htop]
        exact le_max_right _ _
      · rw [← htop]
        have h1 : r.top - 280 - 16 ≤ vh - 280 - 16 := by linarith
        have h2 : (16 : ℚ) ≤ vh - 280 - 16 := by linarith
        have hm := max_le h1 h2
        linarith

/-- Claim C9: when the model request resolves without throwing but its
text is missing or empty, `generateFoodDescription` returns the literal
string for an empty caption — a third outcome distinct from the model's
text and from the failure fallback. -/
theorem C9_empty_text (fetchBlobBase64 : String → ExtResult String)
    (generateContent : String → String → ExtResult (Option String))
    (img comment rname : String) :
    (∀ clean, GeminiService.cleanBase64Of fetchBlobBase64 img = .ok clean →
      (generateContent clean (GeminiService.promptOf comment rname) = .ok none ∨
        generateContent clean (GeminiService.promptOf comment rname) = .ok (some "")) →
      GeminiService.generateFoodDescription fetchBlobBase64 generateContent img comment rname =
        "Delicious!")
  ∧ ("Delicious!" : String) ≠ "Could not generate description." := by
  refine ⟨?_, by decide⟩
  intro clean hc hg
  rcases hg with hg | hg <;>
    simp [GeminiService.generateFoodDescription, hc, hg, GeminiService.jsOrElse]

/-- Claim C10: in both variants, approving user `userId` leaves the
displayed list's length and order unchanged; every entry whose id is
not `userId` is unchanged, and the entry with id `userId` changes only
its status (plus `approvedBy` and `approvedAt` in the manual-override
variant) — all its other fields are inherited unchanged. -/
theorem C10_approve_frame (language approvedAt userId : String) (users : List UserRec) :
    (SiteManagementModal.handleApproveUser language approvedAt userId users).1.length
      = users.length
  ∧ (∀ i : Nat, ∀ u : UserRec, users[i]? = some u → u.id ≠ userId →
      (SiteManagementModal.handleApproveUser language approvedAt userId users).1[i]? = some u)
  ∧ (∀ i : Nat, ∀ u : UserRec, users[i]? = some u → u.id = userId →
      (SiteManagementModal.handleApproveUser language approvedAt userId users).1[i]? =
        some { u with status := "approved", approvedBy := some "admin",
                      approvedAt := some approvedAt })
  ∧ (SiteManagementModal1.handleApproveUser userId users).1.length = users.length
  ∧ (∀ i : Nat, ∀ u : UserRec, users[i]? = some u → u.id ≠ userId →
      (SiteManagementModal1.handleApproveUser userId users).1[i]? = some u)
  ∧ (∀ i : Nat, ∀ u : UserRec, users[i]? = some u → u.id = userId →
      (SiteManagementModal1.handleApproveUser userId users).1[i]? =
        some { u with status := "approved" }) := by
  refine ⟨by simp [SiteManagementModal.handleApproveUser], ?_, ?_,
    by simp [SiteManagementModal1.handleApproveUser], ?_, ?_⟩
  · intro i u hi hne
    simp [SiteManagementModal.handleApproveUser, List.getElem?_map, hi,
      SiteManagementModal.approveUpdate, hne]
  · intro i u hi heq
    simp [SiteManagementModal.handleApproveUser, List.getElem?_map, hi,
      SiteManagementModal.approveUpdate, heq]
  · intro i u hi hne
    simp [SiteManagementModal1.handleApproveUser, List.getElem?_map, hi,
      SiteManagementModal1.approveUpdate, hne]
  · intro i u hi heq
    simp [SiteManagementModal1.handleApproveUser, List.getElem?_map, hi,
      SiteManagementModal1.approveUpdate, heq]
